import Mathlib

/-!
# Verification of the shade_privacy Python SDK

A shallow embedding of the SDK's request-construction pipeline
(`shade_privacy/utils/encrypt.py`, `shade_privacy/utils/sign.py`,
`shade_privacy/sdk.py`) and its notification listener
(`shade_privacy/utils/websockets.py`), with theorems settling the
spec's claims about them.

Conventions of the embedding:
* Python byte strings are `List Nat` with every element `< 256`.
* Python dicts are association lists in insertion order (`PyFields`).
* Python numbers are modelled by `PyVal.int` and the decimal float
  `PyVal.float m e` denoting `m / 10 ^ e`; the literals exercised by the
  SDK's validation and serialization (`1.5`, `-1`, `0`, `0.0001`) are
  exact in this model.  `PyVal.bool` is kept separate so that Python's
  `isinstance(True, int) = True` semantics is represented faithfully.
* The third-party cryptographic primitives (`hashlib.sha256`,
  `hashlib.md5`, the AES-256 block cipher of `Crypto.Cipher.AES`, and
  `hmac`'s HMAC-SHA256) are not code of this repository; they enter the
  embedding as the parameters of a `CryptoPrims` record, constrained
  only by the interface facts `GoodPrims` (output sizes, byte ranges,
  and that block decryption inverts block encryption).  Everything the
  repository itself does — canonical JSON, key/IV derivation choice,
  PKCS#7 padding, CBC chaining, IV-prepending, base64, hex digests —
  is defined concretely below.
-/

mutual

/-- A Python value as used by the SDK's payloads: strings, ints, floats
(decimal model: `float m e` denotes `m / 10 ^ e`), booleans and nested
dicts in insertion order. -/
inductive PyVal where
  | str (s : String)
  | int (n : Int)
  | float (m : Int) (e : Nat)
  | bool (b : Bool)
  | dict (fields : PyFields)

/-- The entries of a Python dict, in insertion order. -/
inductive PyFields where
  | nil
  | cons (key : String) (val : PyVal) (rest : PyFields)

end

/-- `payload.get(key)`: first value stored under `key`, if any. -/
def lookupF : PyFields → String → Option PyVal
  | .nil, _ => none
  | .cons k v rest, key => if k = key then some v else lookupF rest key

/-- `key in payload`. -/
def hasKey (fs : PyFields) (k : String) : Bool :=
  (lookupF fs k).isSome

/-- Truth value of a dict (`not payload` in Python): empty iff falsy. -/
def PyFields.isEmpty : PyFields → Bool
  | .nil => true
  | .cons _ _ _ => false

/-- `{**d, key: v}`: replace the value in place when the key is present,
else append the new entry at the end, as Python dicts do. -/
def dictSet : PyFields → String → PyVal → PyFields
  | .nil, key, v => .cons key v .nil
  | .cons k v' rest, key, v =>
      if k = key then .cons k v rest else .cons k v' (dictSet rest key v)

/-- Lowercase hexadecimal digit for `n % 16`. -/
def hexChar (n : Nat) : Char :=
  "0123456789abcdef".data.getD n '0'

/-- Four-digit lowercase hexadecimal rendering of `n % 65536`, as used in
JSON `\uXXXX` escapes. -/
def hex4 (n : Nat) : String :=
  String.mk [hexChar (n / 4096 % 16), hexChar (n / 256 % 16),
             hexChar (n / 16 % 16), hexChar (n % 16)]

/-- `json.dumps` escaping of one character (`ensure_ascii=True`):
backslash escapes for the JSON specials, `\uXXXX` (with surrogate pairs
beyond the BMP) for control and non-ASCII characters. -/
def escapeChar (c : Char) : String :=
  if c = '"' then "\\\""
  else if c = '\\' then "\\\\"
  else if c = '\n' then "\\n"
  else if c = '\t' then "\\t"
  else if c = '\r' then "\\r"
  else if c = '\x08' then "\\b"
  else if c = '\x0c' then "\\f"
  else if c.toNat < 0x20 ∨ 0x7f ≤ c.toNat then
    if c.toNat < 0x10000 then "\\u" ++ hex4 c.toNat
    else
      "\\u" ++ hex4 (0xd800 + (c.toNat - 0x10000) / 1024) ++
      "\\u" ++ hex4 (0xdc00 + (c.toNat - 0x10000) % 1024)
  else String.singleton c

/-- `json.dumps` escaping of a whole string (without the quotes). -/
def escapeStr (s : String) : String :=
  s.data.foldr (fun c acc => escapeChar c ++ acc) ""

/-- Decimal rendering of a natural number. -/
def natRepr (n : Nat) : String :=
  String.mk (Nat.toDigits 10 n)

/-- `json.dumps` rendering of a Python int. -/
def intRepr (n : Int) : String :=
  if n < 0 then "-" ++ natRepr n.natAbs else natRepr n.natAbs

/-- Decimal rendering of the non-negative float `n / 10 ^ e`: the digits
of `n` padded to at least `e + 1` digits with a point before the last
`e` of them, and a trailing `.0` when `e = 0`, matching Python's `repr`
on the decimal literals the SDK serializes. -/
def natFloatRepr (n : Nat) (e : Nat) : String :=
  if e = 0 then natRepr n ++ ".0"
  else
    let ds := Nat.toDigits 10 n
    let ds := if ds.length < e + 1 then List.replicate (e + 1 - ds.length) '0' ++ ds else ds
    String.mk (ds.take (ds.length - e)) ++ "." ++ String.mk (ds.drop (ds.length - e))

/-- `json.dumps` rendering of the float `m / 10 ^ e`. -/
def floatRepr (m : Int) (e : Nat) : String :=
  if m < 0 then "-" ++ natFloatRepr m.natAbs e else natFloatRepr m.natAbs e

mutual

/-- `json.dumps(·, separators=(',', ':'))` — the canonical compact JSON
serialization used at `encrypt.py:28`: no whitespace, keys in insertion
order. -/
def dumpVal : PyVal → String
  | .str s => "\"" ++ escapeStr s ++ "\""
  | .int n => intRepr n
  | .float m e => floatRepr m e
  | .bool b => if b then "true" else "false"
  | .dict fs => "\x7b" ++ dumpFields fs ++ "\x7d"

/-- Comma-separated `"key":value` entries of a dict body. -/
def dumpFields : PyFields → String
  | .nil => ""
  | .cons k v .nil => "\"" ++ escapeStr k ++ "\":" ++ dumpVal v
  | .cons k v (.cons k2 v2 r) =>
      "\"" ++ escapeStr k ++ "\":" ++ dumpVal v ++ "," ++ dumpFields (.cons k2 v2 r)

end

/-- UTF-8 encoding of one character. -/
def utf8Char (c : Char) : List Nat :=
  let n := c.toNat
  if n < 0x80 then [n]
  else if n < 0x800 then [0xc0 + n / 64, 0x80 + n % 64]
  else if n < 0x10000 then [0xe0 + n / 4096, 0x80 + n / 64 % 64, 0x80 + n % 64]
  else [0xf0 + n / 262144, 0x80 + n / 4096 % 64, 0x80 + n / 64 % 64, 0x80 + n % 64]

/-- `s.encode('utf-8')` as a byte list. -/
def utf8Bytes (s : String) : List Nat :=
  s.data.foldr (fun c acc => utf8Char c ++ acc) []

/-- PKCS#7 padding to 16-byte blocks (`Crypto.Util.Padding.pad` with
`AES.block_size = 16`, `encrypt.py:37`): append `k` copies of the byte
`k`, where `k = 16 - len % 16` (so `1 ≤ k ≤ 16`). -/
def pkcs7Pad (data : List Nat) : List Nat :=
  let padLen := 16 - data.length % 16
  data ++ List.replicate padLen padLen

/-- PKCS#7 unpadding (the "strip PKCS#7 padding" step of the spec's
reverse recipe): read the last byte `k`, demand `1 ≤ k ≤ 16`, that at
least `k` bytes are present and that the last `k` bytes all equal `k`,
and drop them. -/
def pkcs7Unpad (data : List Nat) : Option (List Nat) :=
  match data.getLast? with
  | none => none
  | some k =>
      if k = 0 ∨ 16 < k ∨ data.length < k then none
      else if (data.drop (data.length - k)).all (fun x => x == k) then
        some (data.take (data.length - k))
      else none

/-- Split a byte string into consecutive 16-byte blocks (the block walk
a CBC-mode cipher performs over its input). -/
def chunks16 : List Nat → List (List Nat)
  | [] => []
  | a :: rest => ((a :: rest).take 16) :: chunks16 ((a :: rest).drop 16)
termination_by l => l.length
decreasing_by simp [List.length_drop]; omega

/-- Pointwise XOR of two byte strings. -/
def zipXor (a b : List Nat) : List Nat :=
  List.zipWith (fun x y => x ^^^ y) a b

/-- CBC-mode encryption over an abstract block cipher `enc`: each
plaintext block is XORed with the previous ciphertext block (the IV for
the first) before being enciphered.  This is the mode selected by
`AES.new(key, AES.MODE_CBC, iv)` at `encrypt.py:40`. -/
def cbcEncBlocks (enc : List Nat → List Nat → List Nat) (key : List Nat) :
    List Nat → List (List Nat) → List (List Nat)
  | _, [] => []
  | prev, b :: bs =>
      enc key (zipXor prev b) :: cbcEncBlocks enc key (enc key (zipXor prev b)) bs

/-- CBC-mode decryption over an abstract block cipher `dec`: each
ciphertext block is deciphered and XORed with the previous ciphertext
block (the IV for the first). -/
def cbcDecBlocks (dec : List Nat → List Nat → List Nat) (key : List Nat) :
    List Nat → List (List Nat) → List (List Nat)
  | _, [] => []
  | prev, c :: cs => zipXor prev (dec key c) :: cbcDecBlocks dec key c cs

/-- The base64 alphabet (RFC 4648, as used by `base64.b64encode`). -/
def b64Chars : List Char :=
  "ABCDEFGHIJKLMNOPQRSTUVWXYZabcdefghijklmnopqrstuvwxyz0123456789+/".data

/-- The base64 character for a 6-bit value. -/
def b64Char (n : Nat) : Char :=
  b64Chars.getD n 'A'

/-- The 6-bit value of a base64 character, if it is one. -/
def b64Val (c : Char) : Option Nat :=
  b64Chars.findIdx? (fun x => x = c)

/-- `base64.b64encode` (`encrypt.py:49`): bytes three at a time become
four alphabet characters, a final group of one or two bytes is encoded
with `=` padding. -/
def base64Encode : List Nat → List Char
  | [] => []
  | [a] => [b64Char (a / 4), b64Char (a % 4 * 16), '=', '=']
  | [a, b] => [b64Char (a / 4), b64Char (a % 4 * 16 + b / 16), b64Char (b % 16 * 4), '=']
  | a :: b :: c :: rest =>
      b64Char (a / 4) :: b64Char (a % 4 * 16 + b / 16) ::
      b64Char (b % 16 * 4 + c / 64) :: b64Char (c % 64) :: base64Encode rest

/-- Base64 decoding (the "base64-decoded" step of the spec's reverse
recipe): strict inverse of `base64Encode`, rejecting anything that is
not a canonical encoding. -/
def base64Decode : List Char → Option (List Nat)
  | [] => some []
  | c1 :: c2 :: c3 :: c4 :: rest =>
      match b64Val c1, b64Val c2 with
      | some v1, some v2 =>
          if c3 = '=' then
            if c4 = '=' ∧ rest = [] then
              if v2 % 16 = 0 then some [v1 * 4 + v2 / 16] else none
            else none
          else
            match b64Val c3 with
            | some v3 =>
                if c4 = '=' then
                  if rest = [] then
                    if v3 % 4 = 0 then some [v1 * 4 + v2 / 16, v2 % 16 * 16 + v3 / 4]
                    else none
                  else none
                else
                  match b64Val c4 with
                  | some v4 =>
                      (base64Decode rest).map
                        (fun bs => (v1 * 4 + v2 / 16) :: (v2 % 16 * 16 + v3 / 4) ::
                                   (v3 % 4 * 64 + v4) :: bs)
                  | none => none
            | none => none
      | _, _ => none
  | _ => none

/-- Lowercase hex rendering of a byte string (`.hexdigest()`): two hex
digits per byte, high nibble first. -/
def hexDigest (bytes : List Nat) : String :=
  String.mk (bytes.foldr (fun b acc => hexChar (b / 16 % 16) :: hexChar (b % 16) :: acc) [])

/-- The third-party cryptographic primitives the SDK calls, as abstract
byte functions: `hashlib.sha256(·).digest()`, `hashlib.md5(·).digest()`,
the raw AES-256 block cipher behind `Crypto.Cipher.AES` (key → block →
block, and its inverse for the spec's reverse recipe), and
`hmac.new(key, msg, hashlib.sha256).digest()`. -/
structure CryptoPrims where
  sha256 : List Nat → List Nat
  md5 : List Nat → List Nat
  aesEncryptBlock : List Nat → List Nat → List Nat
  aesDecryptBlock : List Nat → List Nat → List Nat
  hmacSha256 : List Nat → List Nat → List Nat

/-- The interface facts about the third-party primitives that the
round-trip and formatting claims rest on: digest lengths and byte
ranges, and that the AES block cipher is a length-preserving,
byte-valued permutation inverted by its decryptor. -/
structure GoodPrims (P : CryptoPrims) : Prop where
  md5_len : ∀ bs, (P.md5 bs).length = 16
  md5_lt : ∀ bs, ∀ b ∈ P.md5 bs, b < 256
  aes_len : ∀ key b, b.length = 16 → (P.aesEncryptBlock key b).length = 16
  aes_lt : ∀ key b, (∀ x ∈ b, x < 256) → ∀ x ∈ P.aesEncryptBlock key b, x < 256
  aes_inv : ∀ key b, b.length = 16 → P.aesDecryptBlock key (P.aesEncryptBlock key b) = b
  hmac_len : ∀ key msg, (P.hmacSha256 key msg).length = 32
  hmac_lt : ∀ key msg, ∀ b ∈ P.hmacSha256 key msg, b < 256

/-- `encrypt_payload` (`encrypt.py:11-52`): serialize the payload to
compact JSON, derive the AES-256 key as SHA-256 of the UTF-8 secret and
the IV as MD5 of the UTF-8 secret, PKCS#7-pad the UTF-8 plaintext,
AES-256-CBC encrypt, prepend the IV, base64-encode, and wrap the result
as `{"ciphertext": ...}`. -/
def encrypt_payload (P : CryptoPrims) (payload : PyFields) (secret : String) :
    List (String × String) :=
  let json_str := dumpVal (.dict payload)
  let key := P.sha256 (utf8Bytes secret)
  let iv := P.md5 (utf8Bytes secret)
  let padded_data := pkcs7Pad (utf8Bytes json_str)
  let ciphertext := (cbcEncBlocks P.aesEncryptBlock key iv (chunks16 padded_data)).flatten
  let combined := iv ++ ciphertext
  [("ciphertext", String.mk (base64Encode combined))]

/-- `sign_payload` (`sign.py:8-40`): HMAC-SHA256 of the UTF-8 bytes of
`"<ciphertext>:<timestamp>"` keyed by the UTF-8 secret, as a lowercase
hex digest; the ciphertext defaults to `""` when the envelope has no
`ciphertext` key. -/
def sign_payload (P : CryptoPrims) (encrypted_data : List (String × String))
    (secret timestamp : String) : String :=
  let ciphertext := (encrypted_data.lookup "ciphertext").getD ""
  let message := ciphertext ++ ":" ++ timestamp
  hexDigest (P.hmacSha256 (utf8Bytes secret) (utf8Bytes message))

/-- The envelope's ciphertext string (`encrypted_data.get('ciphertext', '')`). -/
def getCiphertext (env : List (String × String)) : String :=
  (env.lookup "ciphertext").getD ""

/-- The spec's reverse recipe (§8 of the design document): base64-decode
the envelope's ciphertext, take the first 16 decoded bytes as the IV,
derive the key as SHA-256 of the UTF-8 secret, AES-256-CBC decrypt the
remainder, and strip the PKCS#7 padding. -/
def decryptRecipe (P : CryptoPrims) (secret : String) (ciphertextB64 : String) :
    Option (List Nat) :=
  match base64Decode ciphertextB64.data with
  | none => none
  | some decoded =>
      let key := P.sha256 (utf8Bytes secret)
      let iv := decoded.take 16
      let body := decoded.drop 16
      pkcs7Unpad (cbcDecBlocks P.aesDecryptBlock key iv (chunks16 body)).flatten

/-- `isinstance(v, (int, float))`: true for ints and floats, and for
booleans, since Python's `bool` is a subtype of `int`. -/
def isNum : PyVal → Bool
  | .int _ => true
  | .float _ _ => true
  | .bool _ => true
  | _ => false

/-- The numeric value a Python comparison sees: ints and decimal floats
at face value, `True = 1`, `False = 0`; other values are never compared
(the `isinstance` guard fires first). -/
def pyRat : PyVal → ℚ
  | .int n => (n : ℚ)
  | .float m e => (m : ℚ) / (10 : ℚ) ^ e
  | .bool b => if b then 1 else 0
  | _ => 0

/-- Executable form of Python's `amount <= 0` on numeric values: a
decimal float `m / 10 ^ e` is non-positive exactly when `m` is, `True`
is `1` and `False` is `0`.  `pyNonpos_iff_pyRat` proves this agrees
with the comparison of the numeric values. -/
def pyNonpos : PyVal → Bool
  | .int n => n ≤ 0
  | .float m _ => m ≤ 0
  | .bool b => !b
  | _ => false

/-- The required payload fields, in the order `sdk.py:149` lists them. -/
def requiredFields : List String :=
  ["recipient", "amount", "token", "walletType"]

/-- The required fields absent from `payload`, in `requiredFields`
order (`sdk.py:150`). -/
def missingFields (payload : PyFields) : List String :=
  requiredFields.filter (fun f => !hasKey payload f)

/-- `', '.join(strings)`. -/
def joinComma : List String → String
  | [] => ""
  | [s] => s
  | s :: s2 :: rest => s ++ ", " ++ joinComma (s2 :: rest)

/-- `_validate_create_intent_input` (`sdk.py:140-163`): reject an empty
payload, an empty wallet signature, missing required fields (naming
them all), a non-numeric or non-positive `amount`, and a non-string or
too-short `recipient`.  The error value is the `ValidationError`
message. -/
def validateCreateIntentInput (payload : PyFields) (wallet_signature : String) :
    Except String Unit :=
  if payload.isEmpty then .error "payload must be a non-empty dictionary"
  else if wallet_signature = "" then .error "wallet_signature is required and must be a string"
  else
    match missingFields payload with
    | f :: fs => .error ("Missing required payload fields: " ++ joinComma (f :: fs))
    | [] =>
        match lookupF payload "amount" with
        | none => .error "amount must be a positive number"
        | some amount =>
            if isNum amount = false ∨ pyNonpos amount = true then
              .error "amount must be a positive number"
            else
              match lookupF payload "recipient" with
              | some (.str recipient) =>
                  if recipient.length < 20 then
                    .error "recipient must be a valid address string"
                  else .ok ()
              | _ => .error "recipient must be a valid address string"

/-- The HTTP POST that `create_intent` hands to the transport: URL,
headers, JSON body. -/
structure HttpRequest where
  url : String
  headers : List (String × String)
  body : PyVal

/-- The externally visible operations `create_intent` performs after
validation, in program order: encrypting the merged payload, reading
the clock (the captured timestamp string), signing, and dispatching the
POST. -/
inductive Effect where
  | encrypted (env : List (String × String))
  | clockRead (timestamp : String)
  | signed (signature : String)
  | posted (req : HttpRequest)

/-- An envelope as the JSON value embedded in the request body. -/
def envToVal (env : List (String × String)) : PyVal :=
  .dict (env.foldr (fun kv acc => .cons kv.1 (.str kv.2) acc) .nil)

/-- `create_intent` (`sdk.py:43-100`), up to the point the request is
handed to the HTTP transport: validate, merge `walletSignature` into
the payload, encrypt the merged record, capture the timestamp
(`datetime.utcnow().isoformat() + "Z"`; the clock reading
`utcnow().isoformat()` is the input `nowIso`), sign
`"<ciphertext>:<timestamp>"`, and build the POST to `{base_url}/intents/`
with body `{"intent": {"payload": payload}, "encryptedData": ...,
"metadata": metadata or {}}` and headers `Content-Type`, `x-api-key`,
`x-signature`, `x-timestamp`.  Returns the performed effects in program
order together with the validation outcome. -/
def create_intent (P : CryptoPrims) (api_key hmac_secret base_url : String)
    (payload : PyFields) (wallet_signature : String) (metadata : Option PyFields)
    (nowIso : String) : List Effect × Except String HttpRequest :=
  match validateCreateIntentInput payload wallet_signature with
  | .error e => ([], .error e)
  | .ok _ =>
      let combined_data := dictSet payload "walletSignature" (.str wallet_signature)
      let encrypted_data := encrypt_payload P combined_data hmac_secret
      let timestamp := nowIso ++ "Z"
      let signature := sign_payload P encrypted_data hmac_secret timestamp
      let request_data : PyVal :=
        .dict (.cons "intent" (.dict (.cons "payload" (.dict payload) .nil))
              (.cons "encryptedData" (envToVal encrypted_data)
              (.cons "metadata" (.dict (metadata.getD .nil)) .nil)))
      let req : HttpRequest :=
        { url := base_url ++ "/intents/"
          headers := [("Content-Type", "application/json"), ("x-api-key", api_key),
                      ("x-signature", signature), ("x-timestamp", timestamp)]
          body := request_data }
      ([.encrypted encrypted_data, .clockRead timestamp, .signed signature, .posted req],
       .ok req)

/-- An inbound WebSocket frame: a text frame or a binary frame
(`websockets.recv` returns `str` or `bytes`). -/
inductive WsFrame where
  | text (s : String)
  | binary (b : List Nat)

/-- How the connection ends after the scripted frames: a clean peer
close, an abnormal closure (both surface as
`websockets.exceptions.ConnectionClosed` from `recv`), or some other
exception raised mid-session. -/
inductive WsEnd where
  | closedClean
  | closedAbnormal
  | transportError (msg : String)
deriving DecidableEq

/-- One scripted run of the transport underneath `connect_websocket`:
an optional failure while connecting, else the inbound frames in
arrival order followed by how the connection ends. -/
structure WsScript where
  connectFail : Option String
  frames : List WsFrame
  ending : WsEnd

/-- The receive loop of `connect_websocket` (`websockets.py:26-42`):
binary frames are skipped, text frames are JSON-parsed (`jsonLoads`
models `json.loads`, `none` = `JSONDecodeError`) and the callback is
invoked with each parsed value; a `ConnectionClosed` from `recv` breaks
the loop, any other exception escapes to the outer handler.  Returns
the callback's arguments in invocation order, and `.error` for an
escaped exception wrapped at `websockets.py:45`. -/
def recvLoop (jsonLoads : String → Option PyVal) :
    List WsFrame → WsEnd → List PyVal × Except String Unit
  | [], .closedClean => ([], .ok ())
  | [], .closedAbnormal => ([], .ok ())
  | [], .transportError m => ([], .error ("WebSocket connection failed: " ++ m))
  | .binary _ :: rest, e => recvLoop jsonLoads rest e
  | .text s :: rest, e =>
      match jsonLoads s with
      | some v =>
          let r := recvLoop jsonLoads rest e
          (v :: r.1, r.2)
      | none => recvLoop jsonLoads rest e

/-- `connect_websocket` (`websockets.py:8-45`) over a scripted
transport: a connection failure is wrapped as `WebSocketError`
immediately, otherwise the receive loop runs over the scripted
frames. -/
def connect_websocket (jsonLoads : String → Option PyVal) (script : WsScript) :
    List PyVal × Except String Unit :=
  match script.connectFail with
  | some m => ([], .error ("WebSocket connection failed: " ++ m))
  | none => recvLoop jsonLoads script.frames script.ending

/-- The parse attempt the loop applies to one frame: `json.loads` on a
text frame, nothing on a binary frame. -/
def frameParse (jsonLoads : String → Option PyVal) : WsFrame → Option PyVal
  | .text s => jsonLoads s
  | .binary _ => none

/-- Whether `needle` occurs at the start of `hay`. -/
def leadsWith : List Char → List Char → Bool
  | _, [] => true
  | [], _ :: _ => false
  | h :: hs, n :: ns => h = n && leadsWith hs ns

/-- Whether `needle` occurs contiguously anywhere in `hay`. -/
def containsSub : List Char → List Char → Bool
  | hay, needle =>
      leadsWith hay needle ||
        match hay with
        | [] => false
        | _ :: t => containsSub t needle

/-- Instantiation of the third-party primitives used by the concrete
witnesses: constant digests and the identity block cipher.  The claims'
theorems hold for every `GoodPrims` instance, so any interface-abiding
stand-in exercises them. -/
def trivialPrims : CryptoPrims where
  sha256 := fun _ => List.replicate 32 0
  md5 := fun _ => List.replicate 16 0
  aesEncryptBlock := fun _ b => b
  aesDecryptBlock := fun _ b => b
  hmacSha256 := fun _ _ => List.replicate 32 0

/-- The spec §8 end-to-end payload: `recipient = "0x" + "a"*40`,
`amount = 1.5`, `token = "ETH"`, `walletType = "eip-155"`. -/
def demoPayload : PyFields :=
  .cons "recipient" (.str "0xaaaaaaaaaaaaaaaaaaaaaaaaaaaaaaaaaaaaaaaa")
  (.cons "amount" (.float 15 1)
  (.cons "token" (.str "ETH")
  (.cons "walletType" (.str "eip-155") .nil)))

/-- The demo payload with `amount` replaced, for the validation
claims. -/
def payloadWithAmount (amt : PyVal) : PyFields :=
  .cons "recipient" (.str "0xaaaaaaaaaaaaaaaaaaaaaaaaaaaaaaaaaaaaaaaa")
  (.cons "amount" amt
  (.cons "token" (.str "ETH")
  (.cons "walletType" (.str "eip-155") .nil)))

/-- A stand-in for `json.loads` in the listener witnesses: parses the
single document `"ok"` and rejects everything else. -/
def demoLoads : String → Option PyVal :=
  fun s => if s = "ok" then some (.str "ok") else none

theorem pyNonpos_iff_pyRat (v : PyVal) (h : isNum v = true) :
    pyNonpos v = true ↔ pyRat v ≤ 0 := by
  cases v <;> simp_all [pyNonpos, pyRat, isNum]
  case float m e =>
    have hp : (0:ℚ) < 10 ^ e := by positivity
    rw [div_nonpos_iff]
    simp [hp.le, hp.not_le, Int.cast_nonpos]
  case bool b => cases b <;> norm_num

theorem leadsWith_append (l t : List Char) : leadsWith (l ++ t) l = true := by
  induction l with
  | nil => cases t <;> rfl
  | cons c cs ih => simp [leadsWith, ih]

theorem containsSub_of_leadsWith {hay needle : List Char}
    (h : leadsWith hay needle = true) : containsSub hay needle = true := by
  cases hay <;> simp [containsSub, h]

theorem containsSub_append_left (pre : List Char) {t needle : List Char}
    (h : containsSub t needle = true) : containsSub (pre ++ t) needle = true := by
  induction pre with
  | nil => simpa using h
  | cons c cs ih => simp [containsSub, ih]

theorem mem_joinComma_containsSub :
    ∀ (l : List String) (x : String), x ∈ l →
      containsSub (joinComma l).data x.data = true := by
  intro l
  induction l with
  | nil => intro x hx; cases hx
  | cons y rest ih =>
      intro x hx
      cases rest with
      | nil =>
          rcases List.mem_singleton.mp hx with rfl
          exact containsSub_of_leadsWith (by simpa using leadsWith_append x.data [])
      | cons r rs =>
          rcases List.mem_cons.mp hx with rfl | hx'
          · refine containsSub_of_leadsWith ?_
            rw [joinComma, String.data_append, String.data_append, List.append_assoc]
            exact leadsWith_append x.data _
          · rw [joinComma, String.data_append]
            exact containsSub_append_left _ (ih x hx')

/-- C2: for the spec §8 end-to-end inputs, the record `create_intent`
encrypts is the payload with `walletSignature` appended after the
payload's keys in insertion order, and its canonical compact JSON
serialization is exactly the expected string with no extra
whitespace. -/
theorem create_intent_plaintext_demo (P : CryptoPrims) :
    dumpVal (.dict (dictSet demoPayload "walletSignature" (.str "0xsig"))) =
      "\x7b\"recipient\":\"0xaaaaaaaaaaaaaaaaaaaaaaaaaaaaaaaaaaaaaaaa\",\"amount\":1.5,\"token\":\"ETH\",\"walletType\":\"eip-155\",\"walletSignature\":\"0xsig\"\x7d"
    ∧ (create_intent P "k" "s3cr3t" "http://localhost:8000/api" demoPayload "0xsig" none
        "2024-01-01T00:00:00").1.head? =
      some (.encrypted (encrypt_payload P
        (dictSet demoPayload "walletSignature" (.str "0xsig")) "s3cr3t")) :=
  ⟨by decide, rfl⟩

/-- C3: `encrypt_payload` is exactly the pipeline that derives the AES
key as `sha256` of the UTF-8 secret and the IV as `md5` of the UTF-8
secret, so two calls with identical arguments return identical
ciphertext strings. -/
theorem encrypt_payload_key_iv_deterministic (P : CryptoPrims) (payload : PyFields)
    (secret : String) :
    encrypt_payload P payload secret =
      [("ciphertext", String.mk (base64Encode (P.md5 (utf8Bytes secret) ++
        (cbcEncBlocks P.aesEncryptBlock (P.sha256 (utf8Bytes secret))
          (P.md5 (utf8Bytes secret))
          (chunks16 (pkcs7Pad (utf8Bytes (dumpVal (.dict payload)))))).flatten)))]
    ∧ encrypt_payload P payload secret = encrypt_payload P payload secret :=
  ⟨rfl, rfl⟩

/-- C6: with an otherwise valid payload, `amount = -1` and `amount = 0`
are rejected with the `ValidationError` message about `amount`, while
`amount = 0.0001` passes validation. -/
theorem validate_amount_bounds :
    validateCreateIntentInput (payloadWithAmount (.int (-1))) "0xsig" =
      .error "amount must be a positive number"
    ∧ validateCreateIntentInput (payloadWithAmount (.int 0)) "0xsig" =
      .error "amount must be a positive number"
    ∧ validateCreateIntentInput (payloadWithAmount (.float 1 4)) "0xsig" = .ok () :=
  ⟨rfl, rfl, rfl⟩

/-- C10: the amount validation accepts the Python boolean `True`:
`isinstance(True, int)` holds (`isNum`), `True` compares as `1 > 0`
(`pyNonpos` is false), so validation succeeds. -/
theorem validate_accepts_bool_true :
    validateCreateIntentInput (payloadWithAmount (.bool true)) "0xsig" = .ok ()
    ∧ isNum (.bool true) = true
    ∧ pyNonpos (.bool true) = false :=
  ⟨rfl, rfl, rfl⟩

/-- C5 counterexample: the empty payload omits all four required keys,
yet the `ValidationError` raised is the non-empty-dictionary message,
which does not name the missing field `amount`; so the claim's message
guarantee fails as stated for every call. -/
theorem create_intent_missing_fields_cex :
    (create_intent trivialPrims "k" "s" "http://localhost:8000/api" .nil "0xsig" none
      "2024-01-01T00:00:00").2 = .error "payload must be a non-empty dictionary"
    ∧ hasKey .nil "amount" = false
    ∧ containsSub "payload must be a non-empty dictionary".data "amount".data = false :=
  ⟨rfl, rfl, rfl⟩

/-- C5 (amended to calls whose payload is non-empty and whose wallet
signature is a non-empty string — the two checks that fire first): when
required keys are missing, `create_intent` performs no encryption,
signing or HTTP dispatch, and fails with the `ValidationError` message
naming every missing field. -/
theorem create_intent_missing_fields (P : CryptoPrims)
    (api_key hmac_secret base_url : String) (payload : PyFields)
    (wallet_signature : String) (metadata : Option PyFields) (nowIso : String)
    (h1 : payload.isEmpty = false) (h2 : wallet_signature ≠ "")
    (h3 : missingFields payload ≠ []) :
    (create_intent P api_key hmac_secret base_url payload wallet_signature metadata
      nowIso).1 = []
    ∧ (create_intent P api_key hmac_secret base_url payload wallet_signature metadata
        nowIso).2 =
      .error ("Missing required payload fields: " ++ joinComma (missingFields payload))
    ∧ ∀ f ∈ missingFields payload,
        containsSub ("Missing required payload fields: " ++
          joinComma (missingFields payload)).data f.data = true := by
  have hv : validateCreateIntentInput payload wallet_signature =
      .error ("Missing required payload fields: " ++ joinComma (missingFields payload)) := by
    rcases hm : missingFields payload with - | ⟨f, fs⟩
    · exact absurd hm h3
    · unfold validateCreateIntentInput
      rw [hm]
      simp [h1, h2]
  refine ⟨?_, ?_, ?_⟩
  · unfold create_intent; rw [hv]
  · unfold create_intent; rw [hv]
  · intro f hf
    rw [String.data_append]
    exact containsSub_append_left _ (mem_joinComma_containsSub _ f hf)

/-- C5 witness: a payload carrying only `recipient` fails fast with the
message naming `amount`, `token` and `walletType`, with no effects
performed. -/
theorem create_intent_missing_fields_witness :
    (create_intent trivialPrims "k" "s" "http://localhost:8000/api"
      (.cons "recipient" (.str "0xaaaaaaaaaaaaaaaaaaaaaaaaaaaaaaaaaaaaaaaa") .nil)
      "0xsig" none "2024-01-01T00:00:00").1 = []
    ∧ (create_intent trivialPrims "k" "s" "http://localhost:8000/api"
        (.cons "recipient" (.str "0xaaaaaaaaaaaaaaaaaaaaaaaaaaaaaaaaaaaaaaaa") .nil)
        "0xsig" none "2024-01-01T00:00:00").2 =
      .error ("Missing required payload fields: " ++ joinComma (missingFields
        (.cons "recipient" (.str "0xaaaaaaaaaaaaaaaaaaaaaaaaaaaaaaaaaaaaaaaa") .nil)))
    ∧ ∀ f ∈ missingFields
        (.cons "recipient" (.str "0xaaaaaaaaaaaaaaaaaaaaaaaaaaaaaaaaaaaaaaaa") .nil),
        containsSub ("Missing required payload fields: " ++ joinComma (missingFields
          (.cons "recipient" (.str "0xaaaaaaaaaaaaaaaaaaaaaaaaaaaaaaaaaaaaaaaa")
            .nil))).data f.data = true :=
  create_intent_missing_fields trivialPrims "k" "s" "http://localhost:8000/api"
    (.cons "recipient" (.str "0xaaaaaaaaaaaaaaaaaaaaaaaaaaaaaaaaaaaaaaaa") .nil)
    "0xsig" none "2024-01-01T00:00:00" rfl (by decide) (by decide)

theorem recvLoop_fst (jsonLoads : String → Option PyVal) :
    ∀ (frames : List WsFrame) (e : WsEnd),
      (recvLoop jsonLoads frames e).1 = frames.filterMap (frameParse jsonLoads) := by
  intro frames
  induction frames with
  | nil => intro e; cases e <;> rfl
  | cons f rest ih =>
      intro e
      cases f with
      | binary b => simpa [recvLoop, frameParse] using ih e
      | text s => cases h : jsonLoads s <;> simp [recvLoop, frameParse, h, ih e]

theorem recvLoop_snd (jsonLoads : String → Option PyVal) (frames : List WsFrame)
    (e : WsEnd) : (recvLoop jsonLoads frames e).2 = (recvLoop jsonLoads [] e).2 := by
  induction frames with
  | nil => rfl
  | cons f rest ih =>
      cases f with
      | binary b => simpa [recvLoop] using ih
      | text s => cases h : jsonLoads s <;> simp [recvLoop, h, ih]

/-- C8: over a run that ends in a clean close, the listener invokes the
handler exactly once per text frame that `json.loads` accepts, in
arrival order, with the parsed value — binary frames and unparsable
text frames are dropped without an invocation; in particular an invalid
JSON text frame followed by one valid frame yields exactly one
invocation. -/
theorem listener_invocations (jsonLoads : String → Option PyVal)
    (frames : List WsFrame) :
    (connect_websocket jsonLoads
        { connectFail := none, frames := frames, ending := .closedClean }).1 =
      frames.filterMap (frameParse jsonLoads)
    ∧ ∀ s₁ s₂ v, jsonLoads s₁ = none → jsonLoads s₂ = some v →
        (connect_websocket jsonLoads
          { connectFail := none, frames := [.text s₁, .text s₂],
            ending := .closedClean }).1 = [v] := by
  constructor
  · exact recvLoop_fst jsonLoads frames .closedClean
  · intro s₁ s₂ v h1 h2
    rw [show (connect_websocket jsonLoads
        { connectFail := none, frames := [.text s₁, .text s₂],
          ending := .closedClean }).1 =
        (recvLoop jsonLoads [.text s₁, .text s₂] .closedClean).1 from rfl,
      recvLoop_fst]
    simp [frameParse, h1, h2]

/-- C8 witness: with a parser that rejects `"bad"` and parses `"ok"`,
the scripted run invokes the handler exactly once. -/
theorem listener_invocations_witness :
    (connect_websocket demoLoads
      { connectFail := none, frames := [.text "bad", .text "ok"],
        ending := .closedClean }).1 = [.str "ok"] :=
  (listener_invocations demoLoads [.text "bad", .text "ok"]).2 "bad" "ok"
    (.str "ok") rfl rfl

/-- C9 counterexample: an abnormal closure (`ConnectionClosedError`
from `recv`, which is not a clean peer close) is caught by the loop's
`except ConnectionClosed` and the listener returns normally instead of
raising `WebSocketError`; so normal termination is not exactly the
clean-close case. -/
theorem listener_abnormal_close_cex :
    (connect_websocket demoLoads
      { connectFail := none, frames := [], ending := .closedAbnormal }).2 =
      Except.ok ()
    ∧ WsEnd.closedAbnormal ≠ WsEnd.closedClean :=
  ⟨rfl, by decide⟩

/-- C9 (amended: the loop treats any `ConnectionClosed` — clean or
abnormal — as its normal termination): the listener returns without
raising exactly when the connection was established and ended in a
closure, and a connection failure or any non-closure transport error is
raised as a `WebSocketError` wrapping the cause. -/
theorem listener_termination (jsonLoads : String → Option PyVal)
    (script : WsScript) :
    ((connect_websocket jsonLoads script).2 = Except.ok () ↔
      script.connectFail = none ∧
        (script.ending = .closedClean ∨ script.ending = .closedAbnormal))
    ∧ (∀ m, script.connectFail = some m →
        (connect_websocket jsonLoads script).2 =
          Except.error ("WebSocket connection failed: " ++ m))
    ∧ (script.connectFail = none → ∀ m, script.ending = .transportError m →
        (connect_websocket jsonLoads script).2 =
          Except.error ("WebSocket connection failed: " ++ m)) := by
  obtain ⟨cf, frames, e⟩ := script
  cases cf with
  | some m => simp [connect_websocket]
  | none =>
      have hsnd : (connect_websocket jsonLoads
          { connectFail := none, frames := frames, ending := e }).2 =
          (recvLoop jsonLoads [] e).2 := recvLoop_snd jsonLoads frames e
      refine ⟨?_, ?_, ?_⟩
      · rw [hsnd]; cases e <;> simp [recvLoop]
      · intro m hm; cases hm
      · intro _ m hm; subst hm; rw [hsnd]; rfl

/-- C9 witness: a failure to establish the connection is raised as a
`WebSocketError` wrapping the cause. -/
theorem listener_termination_witness :
    (connect_websocket demoLoads
      { connectFail := some "boom", frames := [], ending := .closedClean }).2 =
      Except.error ("WebSocket connection failed: " ++ "boom") :=
  (listener_termination demoLoads
    { connectFail := some "boom", frames := [], ending := .closedClean }).2.1
    "boom" rfl

theorem hexChar_mem (n : Nat) : hexChar n ∈ "0123456789abcdef".data := by
  unfold hexChar
  by_cases h : n < 16
  · interval_cases n <;> decide
  · rw [List.getD_eq_default]
    · decide
    · simp only [List.length]
      omega


theorem hexDigest_length (bytes : List Nat) :
    (hexDigest bytes).length = 2 * bytes.length := by
  show (bytes.foldr (fun b acc => hexChar (b / 16 % 16) :: hexChar (b % 16) :: acc)
    []).length = 2 * bytes.length
  induction bytes with
  | nil => rfl
  | cons b rest ih => simp [ih]; omega

theorem hexDigest_mem (bytes : List Nat) :
    ∀ c ∈ (hexDigest bytes).data, c ∈ "0123456789abcdef".data := by
  show ∀ c ∈ bytes.foldr (fun b acc => hexChar (b / 16 % 16) :: hexChar (b % 16) :: acc)
    [], c ∈ "0123456789abcdef".data
  induction bytes with
  | nil => intro c hc; cases hc
  | cons b rest ih =>
      intro c hc
      simp only [List.foldr_cons, List.mem_cons] at hc
      rcases hc with rfl | rfl | hc
      · exact hexChar_mem _
      · exact hexChar_mem _
      · exact ih c hc

theorem trivialPrims_good : GoodPrims trivialPrims := by
  refine ⟨?_, ?_, ?_, ?_, ?_, ?_, ?_⟩
  · intro bs; rfl
  · intro bs b hb
    have := List.eq_of_mem_replicate (show b ∈ List.replicate 16 0 from hb)
    omega
  · intro key b h; exact h
  · intro key b h x hx; exact h x hx
  · intro key b _; rfl
  · intro key msg; rfl
  · intro key msg b hb
    have := List.eq_of_mem_replicate (show b ∈ List.replicate 32 0 from hb)
    omega

/-- C4: `sign_payload` returns the lowercase hex digest of the
HMAC-SHA256, keyed by the UTF-8 secret, of the UTF-8 bytes of
`"<ciphertext>:<timestamp>"` with the ciphertext defaulting to `""`
when absent from the envelope; the output is 64 characters, all
lowercase hex digits. -/
theorem sign_payload_hmac_hex (P : CryptoPrims) (hP : GoodPrims P)
    (env : List (String × String)) (secret timestamp : String) :
    sign_payload P env secret timestamp =
      hexDigest (P.hmacSha256 (utf8Bytes secret)
        (utf8Bytes (((env.lookup "ciphertext").getD "") ++ ":" ++ timestamp)))
    ∧ (sign_payload P env secret timestamp).length = 64
    ∧ ∀ c ∈ (sign_payload P env secret timestamp).data,
        c ∈ "0123456789abcdef".data := by
  refine ⟨rfl, ?_, ?_⟩
  · show (hexDigest (P.hmacSha256 _ _)).length = 64
    rw [hexDigest_length, hP.hmac_len]
  · exact hexDigest_mem _

/-- C4 witness: the characterization at a concrete envelope, secret and
timestamp, via the interface-abiding stand-in primitives. -/
theorem sign_payload_hmac_hex_witness :
    sign_payload trivialPrims [("ciphertext", "abc")] "s3cr3t" "2024-01-01T00:00:00Z" =
      hexDigest (trivialPrims.hmacSha256 (utf8Bytes "s3cr3t")
        (utf8Bytes ((([("ciphertext", "abc")].lookup "ciphertext").getD "") ++ ":" ++
          "2024-01-01T00:00:00Z")))
    ∧ (sign_payload trivialPrims [("ciphertext", "abc")] "s3cr3t"
        "2024-01-01T00:00:00Z").length = 64
    ∧ ∀ c ∈ (sign_payload trivialPrims [("ciphertext", "abc")] "s3cr3t"
        "2024-01-01T00:00:00Z").data, c ∈ "0123456789abcdef".data :=
  sign_payload_hmac_hex trivialPrims trivialPrims_good [("ciphertext", "abc")]
    "s3cr3t" "2024-01-01T00:00:00Z"

/-- C7: on a successful call (validation passes; the payload does not
already carry a `walletSignature` key), the effects of `create_intent`
in program order are: encrypt the merged record, capture one timestamp
`nowIso ++ "Z"` (after encryption, before signing), sign the envelope's
ciphertext with that exact timestamp, and POST with the same timestamp
as the `x-timestamp` header and body
`{intent: {payload: <original payload>}, encryptedData: <envelope>,
metadata: <metadata or {}>}`. -/
theorem create_intent_request_shape (P : CryptoPrims)
    (api_key hmac_secret base_url : String) (payload : PyFields)
    (wallet_signature : String) (metadata : Option PyFields) (nowIso : String)
    (hok : validateCreateIntentInput payload wallet_signature = .ok ())
    (hnk : lookupF payload "walletSignature" = none) :
    ∃ env ts sig req,
      env = encrypt_payload P (dictSet payload "walletSignature"
        (.str wallet_signature)) hmac_secret
      ∧ ts = nowIso ++ "Z"
      ∧ sig = sign_payload P env hmac_secret ts
      ∧ req = HttpRequest.mk (base_url ++ "/intents/")
          [("Content-Type", "application/json"), ("x-api-key", api_key),
           ("x-signature", sig), ("x-timestamp", ts)]
          (.dict (.cons "intent" (.dict (.cons "payload" (.dict payload) .nil))
                 (.cons "encryptedData" (envToVal env)
                 (.cons "metadata" (.dict (metadata.getD .nil)) .nil))))
      ∧ create_intent P api_key hmac_secret base_url payload wallet_signature
          metadata nowIso =
        ([.encrypted env, .clockRead ts, .signed sig, .posted req], .ok req) := by
  refine ⟨_, _, _, _, rfl, rfl, rfl, rfl, ?_⟩
  unfold create_intent
  rw [hok]

/-- C7 witness: the request shape at the spec §8 end-to-end inputs. -/
theorem create_intent_request_shape_witness :
    ∃ env ts sig req,
      env = encrypt_payload trivialPrims (dictSet demoPayload "walletSignature"
        (.str "0xsig")) "s3cr3t"
      ∧ ts = "2024-01-01T00:00:00" ++ "Z"
      ∧ sig = sign_payload trivialPrims env "s3cr3t" ts
      ∧ req = HttpRequest.mk ("http://localhost:8000/api" ++ "/intents/")
          [("Content-Type", "application/json"), ("x-api-key", "k"),
           ("x-signature", sig), ("x-timestamp", ts)]
          (.dict (.cons "intent" (.dict (.cons "payload" (.dict demoPayload) .nil))
                 (.cons "encryptedData" (envToVal env)
                 (.cons "metadata" (.dict ((none : Option PyFields).getD .nil)) .nil))))
      ∧ create_intent trivialPrims "k" "s3cr3t" "http://localhost:8000/api" demoPayload
          "0xsig" none "2024-01-01T00:00:00" =
        ([.encrypted env, .clockRead ts, .signed sig, .posted req], .ok req) :=
  create_intent_request_shape trivialPrims "k" "s3cr3t" "http://localhost:8000/api"
    demoPayload "0xsig" none "2024-01-01T00:00:00" rfl rfl

theorem utf8Char_lt (c : Char) : ∀ b ∈ utf8Char c, b < 256 := by
  have hv : c.toNat < 1114112 := by
    rcases c.valid with h | ⟨_, h2⟩
    · exact lt_trans h (by norm_num)
    · exact h2
  simp only [utf8Char]
  split_ifs with h1 h2 h3 <;> intro b hb <;> simp only [List.mem_cons,
    List.mem_singleton, List.not_mem_nil, or_false] at hb <;> rcases hb with rfl | hb <;>
    first
      | omega
      | (rcases hb with rfl | hb <;> first
          | omega
          | (rcases hb with rfl | rfl <;> omega)
          | (rcases hb with rfl | hb <;> first | omega | (rcases hb with rfl | rfl <;> omega)))

theorem utf8Bytes_lt (s : String) : ∀ b ∈ utf8Bytes s, b < 256 := by
  show ∀ b ∈ s.data.foldr (fun c acc => utf8Char c ++ acc) [], b < 256
  induction s.data with
  | nil => intro b hb; cases hb
  | cons c cs ih =>
      intro b hb
      simp only [List.foldr_cons, List.mem_append] at hb
      rcases hb with hb | hb
      · exact utf8Char_lt c b hb
      · exact ih b hb

theorem pkcs7Pad_length_mod (d : List Nat) : (pkcs7Pad d).length % 16 = 0 := by
  simp only [pkcs7Pad, List.length_append, List.length_replicate]
  omega

theorem pkcs7Pad_lt (d : List Nat) (hd : ∀ x ∈ d, x < 256) :
    ∀ x ∈ pkcs7Pad d, x < 256 := by
  intro x hx
  simp only [pkcs7Pad, List.mem_append, List.mem_replicate] at hx
  rcases hx with hx | ⟨-, rfl⟩
  · exact hd x hx
  · omega

theorem unpad_append_replicate (d : List Nat) (p : Nat) (hp1 : 1 ≤ p)
    (hp2 : p ≤ 16) : pkcs7Unpad (d ++ List.replicate p p) = some d := by
  obtain ⟨k, rfl⟩ : ∃ k, p = k + 1 := ⟨p - 1, by omega⟩
  have hsplit : d ++ List.replicate (k + 1) (k + 1) =
      (d ++ List.replicate k (k + 1)) ++ [k + 1] := by
    rw [List.replicate_succ', List.append_assoc]
  have hlast : (d ++ List.replicate (k + 1) (k + 1)).getLast? = some (k + 1) := by
    rw [hsplit]; exact List.getLast?_concat _
  have hlen : (d ++ List.replicate (k + 1) (k + 1)).length = d.length + (k + 1) := by
    simp
  simp only [pkcs7Unpad, hlast]
  rw [if_neg (by omega)]
  have hdrop : (d ++ List.replicate (k + 1) (k + 1)).drop
      ((d ++ List.replicate (k + 1) (k + 1)).length - (k + 1)) =
      List.replicate (k + 1) (k + 1) := by
    rw [hlen, show d.length + (k + 1) - (k + 1) = d.length from by omega]
    exact List.drop_left d _
  have htake : (d ++ List.replicate (k + 1) (k + 1)).take
      ((d ++ List.replicate (k + 1) (k + 1)).length - (k + 1)) = d := by
    rw [hlen, show d.length + (k + 1) - (k + 1) = d.length from by omega]
    exact List.take_left d _
  rw [hdrop, htake, if_pos]
  simp [List.all_eq_true, List.mem_replicate]

theorem pkcs7Unpad_pad (d : List Nat) : pkcs7Unpad (pkcs7Pad d) = some d := by
  show pkcs7Unpad (d ++ List.replicate (16 - d.length % 16) (16 - d.length % 16)) =
    some d
  exact unpad_append_replicate d _ (by omega) (by omega)

theorem chunks16_flatten (l : List Nat) : (chunks16 l).flatten = l := by
  induction l using chunks16.induct with
  | case1 => simp [chunks16]
  | case2 a rest ih =>
      rw [chunks16]
      simp only [List.flatten_cons, ih, List.take_append_drop]

theorem chunks16_length (l : List Nat) (h : l.length % 16 = 0) :
    ∀ b ∈ chunks16 l, b.length = 16 := by
  induction l using chunks16.induct with
  | case1 => intro b hb; rw [chunks16] at hb; cases hb
  | case2 a rest ih =>
      intro b hb
      rw [chunks16] at hb
      rcases List.mem_cons.mp hb with rfl | hb'
      · simp only [List.length_take, List.length_cons]
        have : (a :: rest).length % 16 = 0 := h
        simp only [List.length_cons] at this
        omega
      · refine ih ?_ b hb'
        simp only [List.length_drop, List.length_cons]
        simp only [List.length_cons] at h
        omega

theorem chunks16_mem_mem (l : List Nat) :
    ∀ b ∈ chunks16 l, ∀ x ∈ b, x ∈ l := by
  induction l using chunks16.induct with
  | case1 => intro b hb; rw [chunks16] at hb; cases hb
  | case2 a rest ih =>
      intro b hb x hx
      rw [chunks16] at hb
      rcases List.mem_cons.mp hb with rfl | hb'
      · exact List.take_subset _ _ hx
      · exact List.drop_subset _ _ (ih b hb' x hx)

theorem chunks16_of_blocks :
    ∀ (bs : List (List Nat)), (∀ b ∈ bs, b.length = 16) →
      chunks16 bs.flatten = bs := by
  intro bs
  induction bs with
  | nil => intro _; simp [chunks16]
  | cons b rest ih =>
      intro h
      have hb : b.length = 16 := h b (List.mem_cons_self _ _)
      cases b with
      | nil => simp at hb
      | cons x xs =>
          rw [List.flatten_cons, List.cons_append, chunks16, ← List.cons_append,
            List.take_left' hb, List.drop_left' hb,
            ih (fun b' hb' => h b' (List.mem_cons_of_mem _ hb'))]

theorem zipXor_lt : ∀ (a b : List Nat), (∀ x ∈ a, x < 256) → (∀ x ∈ b, x < 256) →
    ∀ x ∈ zipXor a b, x < 256 := by
  have hpow : (2:ℕ) ^ 8 = 256 := by norm_num
  intro a
  induction a with
  | nil => intro b _ _ x hx; cases hx
  | cons y ys ih =>
      intro b ha hb x hx
      cases b with
      | nil => cases hx
      | cons z zs =>
          rcases List.mem_cons.mp hx with rfl | hx'
          · have h1 : y < 2 ^ 8 := by rw [hpow]; exact ha y (List.mem_cons_self _ _)
            have h2 : z < 2 ^ 8 := by rw [hpow]; exact hb z (List.mem_cons_self _ _)
            exact hpow ▸ Nat.xor_lt_two_pow h1 h2
          · exact ih zs (fun u hu => ha u (List.mem_cons_of_mem _ hu))
              (fun u hu => hb u (List.mem_cons_of_mem _ hu)) x hx'

theorem zipXor_length (a b : List Nat) :
    (zipXor a b).length = min a.length b.length :=
  List.length_zipWith _ _ _

theorem zipXor_zipXor (a : List Nat) :
    ∀ b : List Nat, a.length = b.length → zipXor a (zipXor a b) = b := by
  induction a with
  | nil =>
      intro b hb
      cases b with
      | nil => rfl
      | cons y ys => simp at hb
  | cons x xs ih =>
      intro b hb
      cases b with
      | nil => simp at hb
      | cons y ys =>
          have hb' : xs.length = ys.length := by simpa using hb
          show (x ^^^ (x ^^^ y)) :: zipXor xs (zipXor xs ys) = y :: ys
          rw [← Nat.xor_assoc, Nat.xor_self, Nat.zero_xor, ih ys hb']

theorem cbcEncBlocks_good (P : CryptoPrims) (hP : GoodPrims P) (key : List Nat) :
    ∀ (bs : List (List Nat)) (prev : List Nat), prev.length = 16 →
      (∀ x ∈ prev, x < 256) →
      (∀ b ∈ bs, b.length = 16 ∧ ∀ x ∈ b, x < 256) →
      ∀ blk ∈ cbcEncBlocks P.aesEncryptBlock key prev bs,
        blk.length = 16 ∧ ∀ x ∈ blk, x < 256 := by
  intro bs
  induction bs with
  | nil => intro prev _ _ _ blk hblk; cases hblk
  | cons b rest ih =>
      intro prev hplen hplt hbs blk hblk
      obtain ⟨hblen, hblt⟩ := hbs b (List.mem_cons_self _ _)
      have hxlen : (zipXor prev b).length = 16 := by
        rw [zipXor_length, hplen, hblen]; omega
      have hclen : (P.aesEncryptBlock key (zipXor prev b)).length = 16 :=
        hP.aes_len key _ hxlen
      have hclt : ∀ x ∈ P.aesEncryptBlock key (zipXor prev b), x < 256 :=
        hP.aes_lt key _ (zipXor_lt prev b hplt hblt)
      rw [cbcEncBlocks] at hblk
      rcases List.mem_cons.mp hblk with rfl | hblk'
      · exact ⟨hclen, hclt⟩
      · exact ih _ hclen hclt
          (fun b' hb' => hbs b' (List.mem_cons_of_mem _ hb')) blk hblk'

theorem cbcDec_cbcEnc (P : CryptoPrims) (hP : GoodPrims P) (key : List Nat) :
    ∀ (bs : List (List Nat)) (prev : List Nat), prev.length = 16 →
      (∀ b ∈ bs, b.length = 16) →
      cbcDecBlocks P.aesDecryptBlock key prev
        (cbcEncBlocks P.aesEncryptBlock key prev bs) = bs := by
  intro bs
  induction bs with
  | nil => intro prev _ _; rfl
  | cons b rest ih =>
      intro prev hplen hbs
      have hblen : b.length = 16 := hbs b (List.mem_cons_self _ _)
      have hxlen : (zipXor prev b).length = 16 := by
        rw [zipXor_length, hplen, hblen]; omega
      rw [cbcEncBlocks, cbcDecBlocks, hP.aes_inv key _ hxlen,
        zipXor_zipXor prev b (by omega),
        ih _ (hP.aes_len key _ hxlen) (fun b' hb' => hbs b' (List.mem_cons_of_mem _ hb'))]

set_option maxHeartbeats 1000000 in
theorem b64_char_spec : ∀ i : Fin 64, b64Val (b64Char i) = some i ∧ b64Char i ≠ '=' := by
  decide

theorem b64Val_b64Char (n : Nat) (h : n < 64) : b64Val (b64Char n) = some n := by
  have := (b64_char_spec ⟨n, h⟩).1
  simpa using this

theorem b64Char_ne_eq (n : Nat) (h : n < 64) : b64Char n ≠ '=' := by
  have := (b64_char_spec ⟨n, h⟩).2
  simpa using this

theorem base64Decode_encode : ∀ (bs : List Nat), (∀ x ∈ bs, x < 256) →
    base64Decode (base64Encode bs) = some bs := by
  intro bs
  induction bs using base64Encode.induct with
  | case1 => intro _; rfl
  | case2 a =>
      intro h
      have ha : a < 256 := h a (List.mem_cons_self _ _)
      have e1 : b64Val (b64Char (a / 4)) = some (a / 4) := b64Val_b64Char _ (by omega)
      have e2 : b64Val (b64Char (a % 4 * 16)) = some (a % 4 * 16) :=
        b64Val_b64Char _ (by omega)
      simp only [base64Encode, base64Decode, e1, e2, if_pos rfl, Nat.mul_mod_left,
        and_self, if_true]
      rw [show a / 4 * 4 + a % 4 * 16 / 16 = a from by omega]
  | case3 a b =>
      intro h
      have ha : a < 256 := h a (List.mem_cons_self _ _)
      have hb : b < 256 := h b (List.mem_cons_of_mem _ (List.mem_cons_self _ _))
      have e1 : b64Val (b64Char (a / 4)) = some (a / 4) := b64Val_b64Char _ (by omega)
      have e2 : b64Val (b64Char (a % 4 * 16 + b / 16)) = some (a % 4 * 16 + b / 16) :=
        b64Val_b64Char _ (by omega)
      have e3 : b64Val (b64Char (b % 16 * 4)) = some (b % 16 * 4) :=
        b64Val_b64Char _ (by omega)
      simp only [base64Encode, base64Decode, e1, e2, e3,
        if_neg (b64Char_ne_eq (b % 16 * 4) (by omega)), if_pos rfl, Nat.mul_mod_left,
        if_true]
      have h1 : a / 4 * 4 + (a % 4 * 16 + b / 16) / 16 = a := by omega
      have h2 : (a % 4 * 16 + b / 16) % 16 * 16 + b % 16 * 4 / 4 = b := by omega
      rw [h1, h2]
  | case4 a b c rest ih =>
      intro h
      have ha : a < 256 := h a (List.mem_cons_self _ _)
      have hb : b < 256 := h b (List.mem_cons_of_mem _ (List.mem_cons_self _ _))
      have hc : c < 256 := h c (List.mem_cons_of_mem _ (List.mem_cons_of_mem _
        (List.mem_cons_self _ _)))
      have hrest : ∀ x ∈ rest, x < 256 := fun x hx =>
        h x (List.mem_cons_of_mem _ (List.mem_cons_of_mem _ (List.mem_cons_of_mem _ hx)))
      have e1 : b64Val (b64Char (a / 4)) = some (a / 4) := b64Val_b64Char _ (by omega)
      have e2 : b64Val (b64Char (a % 4 * 16 + b / 16)) = some (a % 4 * 16 + b / 16) :=
        b64Val_b64Char _ (by omega)
      have e3 : b64Val (b64Char (b % 16 * 4 + c / 64)) = some (b % 16 * 4 + c / 64) :=
        b64Val_b64Char _ (by omega)
      have e4 : b64Val (b64Char (c % 64)) = some (c % 64) := b64Val_b64Char _ (by omega)
      simp only [base64Encode, base64Decode, e1, e2, e3, e4,
        if_neg (b64Char_ne_eq (b % 16 * 4 + c / 64) (by omega)),
        if_neg (b64Char_ne_eq (c % 64) (by omega)), ih hrest, Option.map_some']
      have h1 : a / 4 * 4 + (a % 4 * 16 + b / 16) / 16 = a := by omega
      have h2 : (a % 4 * 16 + b / 16) % 16 * 16 + (b % 16 * 4 + c / 64) / 4 = b := by omega
      have h3 : (b % 16 * 4 + c / 64) % 4 * 64 + c % 64 = c := by omega
      rw [h1, h2, h3]

/-- C1: decrypting the base64-decoded ciphertext of
`encrypt_payload payload secret` by the spec's reverse recipe — key =
SHA-256 of the UTF-8 secret, IV = the first 16 decoded bytes,
AES-256-CBC decrypt the remainder, strip the PKCS#7 padding — yields
exactly the UTF-8 bytes of the canonical compact JSON serialization of
the payload, for every payload and non-empty secret and every
interface-abiding AES/MD5 instantiation. -/
theorem encrypt_decrypt_roundtrip (P : CryptoPrims) (hP : GoodPrims P)
    (payload : PyFields) (secret : String) (hs : secret ≠ "") :
    decryptRecipe P secret (getCiphertext (encrypt_payload P payload secret)) =
      some (utf8Bytes (dumpVal (.dict payload))) := by
  have hiv_len := hP.md5_len (utf8Bytes secret)
  have hiv_lt := hP.md5_lt (utf8Bytes secret)
  have hpad_mod : (pkcs7Pad (utf8Bytes (dumpVal (.dict payload)))).length % 16 = 0 :=
    pkcs7Pad_length_mod _
  have hpad_lt : ∀ x ∈ pkcs7Pad (utf8Bytes (dumpVal (.dict payload))), x < 256 :=
    pkcs7Pad_lt _ (utf8Bytes_lt _)
  have hblocks_good : ∀ b ∈ chunks16 (pkcs7Pad (utf8Bytes (dumpVal (.dict payload)))),
      b.length = 16 ∧ ∀ x ∈ b, x < 256 :=
    fun b hb => ⟨chunks16_length _ hpad_mod b hb,
      fun x hx => hpad_lt x (chunks16_mem_mem _ b hb x hx)⟩
  have hct_good : ∀ blk ∈ cbcEncBlocks P.aesEncryptBlock (P.sha256 (utf8Bytes secret))
      (P.md5 (utf8Bytes secret)) (chunks16 (pkcs7Pad (utf8Bytes (dumpVal (.dict payload))))),
      blk.length = 16 ∧ ∀ x ∈ blk, x < 256 :=
    cbcEncBlocks_good P hP _ _ _ hiv_len hiv_lt hblocks_good
  have hcomb_lt : ∀ x ∈ P.md5 (utf8Bytes secret) ++
      (cbcEncBlocks P.aesEncryptBlock (P.sha256 (utf8Bytes secret))
        (P.md5 (utf8Bytes secret))
        (chunks16 (pkcs7Pad (utf8Bytes (dumpVal (.dict payload)))))).flatten, x < 256 := by
    intro x hx
    rcases List.mem_append.mp hx with hx' | hx'
    · exact hiv_lt x hx'
    · rcases List.mem_flatten.mp hx' with ⟨blk, hblk, hxblk⟩
      exact (hct_good blk hblk).2 x hxblk
  have hdec : base64Decode (String.mk (base64Encode (P.md5 (utf8Bytes secret) ++
      (cbcEncBlocks P.aesEncryptBlock (P.sha256 (utf8Bytes secret))
        (P.md5 (utf8Bytes secret))
        (chunks16 (pkcs7Pad (utf8Bytes (dumpVal (.dict payload)))))).flatten))).data =
      some (P.md5 (utf8Bytes secret) ++
      (cbcEncBlocks P.aesEncryptBlock (P.sha256 (utf8Bytes secret))
        (P.md5 (utf8Bytes secret))
        (chunks16 (pkcs7Pad (utf8Bytes (dumpVal (.dict payload)))))).flatten) :=
    base64Decode_encode _ hcomb_lt
  show decryptRecipe P secret (String.mk (base64Encode (P.md5 (utf8Bytes secret) ++
      (cbcEncBlocks P.aesEncryptBlock (P.sha256 (utf8Bytes secret))
        (P.md5 (utf8Bytes secret))
        (chunks16 (pkcs7Pad (utf8Bytes (dumpVal (.dict payload)))))).flatten))) =
    some (utf8Bytes (dumpVal (.dict payload)))
  rw [decryptRecipe, hdec]
  show pkcs7Unpad (cbcDecBlocks P.aesDecryptBlock (P.sha256 (utf8Bytes secret))
      (List.take 16 (P.md5 (utf8Bytes secret) ++
        (cbcEncBlocks P.aesEncryptBlock (P.sha256 (utf8Bytes secret))
          (P.md5 (utf8Bytes secret))
          (chunks16 (pkcs7Pad (utf8Bytes (dumpVal (.dict payload)))))).flatten))
      (chunks16 (List.drop 16 (P.md5 (utf8Bytes secret) ++
        (cbcEncBlocks P.aesEncryptBlock (P.sha256 (utf8Bytes secret))
          (P.md5 (utf8Bytes secret))
          (chunks16 (pkcs7Pad (utf8Bytes (dumpVal (.dict payload)))))).flatten)))).flatten =
    some (utf8Bytes (dumpVal (.dict payload)))
  rw [List.take_left' hiv_len, List.drop_left' hiv_len,
    chunks16_of_blocks _ (fun b hb => (hct_good b hb).1),
    cbcDec_cbcEnc P hP _ _ _ hiv_len (fun b hb => (hblocks_good b hb).1),
    chunks16_flatten, pkcs7Unpad_pad]

/-- C1 witness: the round trip at the spec §8 payload and secret, with
the interface-abiding stand-in primitives. -/
theorem encrypt_decrypt_roundtrip_witness :
    decryptRecipe trivialPrims "s3cr3t"
      (getCiphertext (encrypt_payload trivialPrims demoPayload "s3cr3t")) =
      some (utf8Bytes (dumpVal (.dict demoPayload))) :=
  encrypt_decrypt_roundtrip trivialPrims trivialPrims_good demoPayload "s3cr3t"
    (by decide)
